import Mathlib

/-!
Verification of the susurrare voice-dictation core against its
natural-language specification.  The definitions below are shallow
embeddings translated from the TypeScript source:

  * text pipeline stages        — packages/core/src/pipeline/stages.ts
  * default pipeline order      — pipeline/pipeline.ts (DEFAULT_PIPELINE)
  * transcription client        — transcription/client.ts (resolveModel,
                                  openStream realtime commit guard,
                                  transcribeWithFallback)
  * session state machine       — speechToText/session.ts (finalize,
                                  cancel, streaming final-text merge)

JavaScript strings are modelled as Lean `String`/`List Char`; regex-based
transforms are re-expressed as explicit character-list scans that follow
the source regexes exactly.  Recursions that the source expresses as
cursor loops are written with an explicit fuel argument initialised to
the input length; every loop iteration of the source consumes at least
one element, so the fuel never runs out on the wrapper entry points.
-/

namespace Susurrare

/-- JS `\s` for the character range used by this code base
(space, tab, line feed, carriage return, vertical tab, form feed). -/
def isJsWs (c : Char) : Bool :=
  c = ' ' || c = '\t' || c = '\n' || c = '\r' || c = '\x0b' || c = '\x0c'

/-- The trailing-punctuation class `[.,!?;:]` of the token splitter. -/
def isTrailingPunct (c : Char) : Bool :=
  c = '.' || c = ',' || c = '!' || c = '?' || c = ';' || c = ':'

/-- The class `[,.;!?]` of the whitespace-before-punctuation rule
(note: no colon in this one, faithful to the source regex). -/
def isNormPunct (c : Char) : Bool :=
  c = ',' || c = '.' || c = ';' || c = '!' || c = '?'

/-- Sentence-terminal punctuation `[.!?]`. -/
def isTermPunctChar (c : Char) : Bool :=
  c = '.' || c = '!' || c = '?'

/-- JS `\w`: ASCII letters, digits and underscore. -/
def isWordChar (c : Char) : Bool :=
  ('a' ≤ c && c ≤ 'z') || ('A' ≤ c && c ≤ 'Z') || ('0' ≤ c && c ≤ '9') || c = '_'

/-- ASCII lower-casing, the fragment of JS `toLowerCase`/the `i` flag
exercised by this code base. -/
def lowerChar (c : Char) : Char :=
  if 'A' ≤ c && c ≤ 'Z' then Char.ofNat (c.toNat + 32) else c

def lowerStr (s : String) : String := ⟨s.data.map lowerChar⟩

/-- JS `String.prototype.trim` (both ends). -/
def jsTrimL (l : List Char) : List Char :=
  ((l.dropWhile isJsWs).reverse.dropWhile isJsWs).reverse

def jsTrim (s : String) : String := ⟨jsTrimL s.data⟩

/-- JS `String.prototype.trimEnd`. -/
def jsTrimEnd (s : String) : String := ⟨(s.data.reverse.dropWhile isJsWs).reverse⟩

/-- `input.replace(/\s+/g, ' ')`: collapse every whitespace run to one space. -/
def collapseWsGo : Nat → List Char → List Char
  | 0, l => l
  | _ + 1, [] => []
  | fuel + 1, c :: cs =>
    if isJsWs c then ' ' :: collapseWsGo fuel (cs.dropWhile isJsWs)
    else c :: collapseWsGo fuel cs

def collapseWs (l : List Char) : List Char := collapseWsGo l.length l

/-- `split(/\r?\n/)`: break at each line feed, dropping a carriage return
immediately before it; a lone carriage return does not split. -/
def splitLinesGo : List Char → List Char → List (List Char)
  | [], acc => [acc.reverse]
  | '\n' :: rest, acc =>
    (match acc with
      | '\r' :: acc' => acc'.reverse
      | _ => acc.reverse) :: splitLinesGo rest []
  | c :: rest, acc => splitLinesGo rest (c :: acc)

def splitLines (s : String) : List (List Char) := splitLinesGo s.data []

def containsChar (s : String) (c : Char) : Bool := s.data.contains c

/-- Whitespace-normalization stage body: collapse whitespace runs and trim,
per line when the text has line breaks (stages.ts lines 344-357). -/
def whitespaceNormalizeRun (input : String) : String :=
  if ¬ containsChar input '\n' && ¬ containsChar input '\r' then
    jsTrim ⟨collapseWs input.data⟩
  else
    jsTrim ⟨(List.intercalate ['\n']
      ((splitLines input).map (fun line => jsTrimL (collapseWs line))))⟩

/-- `line.replace(/\s+([,.;!?])/g, '$1')`: drop a whitespace run that sits
directly before one of `[,.;!?]`; scanning resumes after the kept mark. -/
def rmWsBeforePunctGo : Nat → List Char → List Char
  | 0, l => l
  | _ + 1, [] => []
  | fuel + 1, c :: cs =>
    if isJsWs c then
      match cs.dropWhile isJsWs with
      | [] => c :: cs
      | p :: rest =>
        if isNormPunct p then p :: rmWsBeforePunctGo fuel rest
        else (c :: cs.takeWhile isJsWs) ++ rmWsBeforePunctGo fuel (p :: rest)
    else c :: rmWsBeforePunctGo fuel cs

/-- `line.replace(/\.{3,}/g, '...')`: collapse runs of three or more dots. -/
def collapseDotsGo : Nat → List Char → List Char
  | 0, l => l
  | _ + 1, [] => []
  | fuel + 1, c :: cs =>
    if c = '.' then
      let run := 1 + (cs.takeWhile (· = '.')).length
      let rest := cs.dropWhile (· = '.')
      (if run ≥ 3 then ['.', '.', '.'] else List.replicate run '.')
        ++ collapseDotsGo fuel rest
    else c :: collapseDotsGo fuel cs

/-- `line.replace(/[ \t]{2,}/g, ' ')`: collapse runs of two or more
spaces/tabs to a single space (a lone tab is left alone). -/
def collapseSpaceTabGo : Nat → List Char → List Char
  | 0, l => l
  | _ + 1, [] => []
  | fuel + 1, c :: cs =>
    if c = ' ' || c = '\t' then
      match cs with
      | c' :: _ =>
        if c' = ' ' || c' = '\t' then
          ' ' :: collapseSpaceTabGo fuel (cs.dropWhile (fun x => x = ' ' || x = '\t'))
        else c :: collapseSpaceTabGo fuel cs
      | [] => [c]
    else c :: collapseSpaceTabGo fuel cs

/-- Punctuation normalization of one line (stages.ts lines 381-386). -/
def normalizePunctLine (l : List Char) : List Char :=
  jsTrimL (collapseSpaceTabGo l.length
    (collapseDotsGo l.length (rmWsBeforePunctGo l.length l)))

/-- Punctuation-normalization stage body (stages.ts lines 380-396). -/
def punctuationNormalizeRun (input : String) : String :=
  if ¬ containsChar input '\n' && ¬ containsChar input '\r' then
    ⟨normalizePunctLine input.data⟩
  else
    jsTrim ⟨List.intercalate ['\n'] ((splitLines input).map normalizePunctLine)⟩

/-! ### Shortcut substitution (stages.ts lines 325-342) -/

/-- The edge-strip class of `normalizeShortcutToken`: whitespace, ASCII and
curly quotes, parentheses, square/curly brackets and angle brackets
(written via code points to keep the class explicit). -/
def isStripChar (c : Char) : Bool :=
  isJsWs c || c = Char.ofNat 34 || c = Char.ofNat 39 ||
  c = Char.ofNat 0x201C || c = Char.ofNat 0x201D ||
  c = Char.ofNat 0x2018 || c = Char.ofNat 0x2019 ||
  c = Char.ofNat 40 || c = Char.ofNat 41 || c = Char.ofNat 91 || c = Char.ofNat 93 ||
  c = Char.ofNat 123 || c = Char.ofNat 125 || c = Char.ofNat 60 || c = Char.ofNat 62

def stripEdges (l : List Char) : List Char :=
  ((l.dropWhile isStripChar).reverse.dropWhile isStripChar).reverse

def stripTrailingPunct (l : List Char) : List Char :=
  (l.reverse.dropWhile isTrailingPunct).reverse

/-- `normalizeShortcutToken`: trim, strip surrounding quotes/brackets,
strip trailing punctuation, collapse inner whitespace, lower-case. -/
def normalizeShortcutToken (value : String) : String :=
  lowerStr ⟨collapseWs (stripTrailingPunct (stripEdges (jsTrimL value.data)))⟩

structure ShortcutEntry where
  keyword : String
  snippet : String
deriving DecidableEq, Repr

/-- `applyShortcuts`: whole-input exact keyword match replaces the input
with the snippet verbatim; otherwise the input is untouched. -/
def applyShortcuts (input : String) (shortcuts : List ShortcutEntry) : String :=
  if jsTrim input = "" then input
  else
    let normalizedInput := normalizeShortcutToken input
    if normalizedInput = "" then input
    else
      match shortcuts.find? (fun e => normalizeShortcutToken e.keyword = normalizedInput) with
      | some m => m.snippet
      | none => input

/-! ### Vocabulary replacement (stages.ts lines 399-409, 417)

`new RegExp('\\b' + escapeRegExp(source) + '\\b', 'gi')` over the input:
the source term is matched literally (escapeRegExp neutralises regex
metacharacters), case-insensitively, between JS word boundaries; the
global scan resumes after each match on the original string, and the
replacement is inserted literally (the replacement strings considered
here contain no `$` patterns). -/

def ciEqChar (a b : Char) : Bool := lowerChar a = lowerChar b

def ciIsPrefix : List Char → List Char → Bool
  | [], _ => true
  | _ :: _, [] => false
  | a :: as, b :: bs => ciEqChar a b && ciIsPrefix as bs

def optIsWord : Option Char → Bool
  | none => false
  | some c => isWordChar c

def wbReplaceGo (src repl : List Char) : Nat → Option Char → List Char → List Char
  | 0, _, l => l
  | _ + 1, _, [] => []
  | fuel + 1, prev, c :: cs =>
    let n := src.length
    if ciIsPrefix src (c :: cs) &&
        (optIsWord prev ≠ isWordChar c) &&
        (optIsWord ((c :: cs).get? (n - 1)) ≠ optIsWord ((c :: cs).get? n)) then
      repl ++ wbReplaceGo src repl fuel ((c :: cs).get? (n - 1)) ((c :: cs).drop n)
    else c :: wbReplaceGo src repl fuel (some c) cs

/-- One vocabulary entry applied over the whole input (word-boundary,
case-insensitive, global). -/
def wbReplaceAll (src repl input : String) : String :=
  ⟨wbReplaceGo src.data repl.data input.data.length none input.data⟩

structure VocabularyEntry where
  source : String
  replacement : String
deriving DecidableEq, Repr

/-- Vocabulary stage body: entries fold left over the text, each applied
to the previous output; an empty source term is skipped. -/
def vocabularyReplaceRun (input : String) (vocab : List VocabularyEntry) : String :=
  vocab.foldl
    (fun acc e => if e.source = "" then acc else wbReplaceAll e.source e.replacement acc)
    input

/-! ### Voice-command transducer (stages.ts lines 3-323) -/

inductive FormattingStyle | plain | markdown | slack
deriving DecidableEq, Repr

inductive FmtKind | bold | italic
deriving DecidableEq, Repr

inductive CmdLevel | punctuation | full
deriving DecidableEq, Repr

def formatWord (word : String) (style : FormattingStyle) (kind : FmtKind) : String :=
  match style, kind with
  | .plain, _ => word
  | .markdown, .bold => "**" ++ word ++ "**"
  | .markdown, .italic => "*" ++ word ++ "*"
  | .slack, .bold => "*" ++ word ++ "*"
  | .slack, .italic => "_" ++ word ++ "_"

inductive OutputToken
  | word (text : String)
  | punct (text : String)
  | newline
deriving DecidableEq, Repr

def OutputToken.isPunct : OutputToken → Bool
  | .punct _ => true
  | _ => false

def OutputToken.isWord : OutputToken → Bool
  | .word _ => true
  | _ => false

/-- A whitespace token split into word part and trailing punctuation by
`/^(.+?)([.,!?;:]+)?$/`: the lazy group leaves the maximal trailing
punctuation run as `trailing`, except that the word part is never empty
(an all-punctuation token keeps its first character as the word). -/
structure Token where
  word : String
  trailing : String
  lower : String
deriving DecidableEq, Repr

def splitWsGo : Nat → List Char → List (List Char)
  | 0, _ => []
  | _ + 1, [] => []
  | fuel + 1, c :: cs =>
    if isJsWs c then splitWsGo fuel (cs.dropWhile isJsWs)
    else (c :: cs.takeWhile (fun x => ¬ isJsWs x)) ::
      splitWsGo fuel (cs.dropWhile (fun x => ¬ isJsWs x))

def splitWs (l : List Char) : List (List Char) := splitWsGo l.length l

def mkToken (raw : List Char) : Token :=
  let rev := raw.reverse
  let rest := rev.dropWhile isTrailingPunct
  let p :=
    if rest.isEmpty then (raw.take 1, raw.drop 1)
    else (rest.reverse, (rev.takeWhile isTrailingPunct).reverse)
  { word := ⟨p.1⟩, trailing := ⟨p.2⟩, lower := lowerStr ⟨p.1⟩ }

/-- `matchAt`: the next tokens' lowered word parts equal the phrase. -/
def matchKw (toks : List Token) (kws : List String) : Bool :=
  decide ((toks.take kws.length).map Token.lower = kws) && kws.length ≤ toks.length

def containsTermPunct (p : String) : Bool := p.data.any isTermPunctChar

/-- `clearSentenceFormatOnPunct`. -/
def clearOnPunct (pending : Option FmtKind) (p : String) : Option FmtKind :=
  if containsTermPunct p then none else pending

/-- `removeTrailingPunct` on the reversed output list. -/
def rmTrailPunct (out : List OutputToken) : List OutputToken :=
  out.dropWhile OutputToken.isPunct

def removeFirstWordGo : List OutputToken → List OutputToken
  | [] => []
  | .word _ :: rest => rest
  | t :: rest => t :: removeFirstWordGo rest

/-- `deleteLastWord` (effective only at full level). -/
def deleteLastWordOp (allowDeletes : Bool) (out : List OutputToken) : List OutputToken :=
  if ¬ allowDeletes then out
  else
    let o1 := rmTrailPunct out
    if o1.any OutputToken.isWord then rmTrailPunct (removeFirstWordGo o1) else o1

def dropToSentenceStart : List OutputToken → List OutputToken
  | [] => []
  | .newline :: rest => rest
  | .punct p :: rest => if containsTermPunct p then rest else dropToSentenceStart rest
  | .word _ :: rest => dropToSentenceStart rest

/-- `deleteLastSentence`: drop back through (and including) the previous
newline or sentence-terminal punctuation; clear all output if none. -/
def deleteLastSentenceOp (allowDeletes : Bool) (out : List OutputToken) : List OutputToken :=
  if ¬ allowDeletes then out else dropToSentenceStart (rmTrailPunct out)

def mapFirstWord (f : String → String) : List OutputToken → List OutputToken
  | [] => []
  | .word w :: rest => .word (f w) :: rest
  | t :: rest => t :: mapFirstWord f rest

/-- `applyToLastWord` (effective only at full level). -/
def applyToLastWordOp (allowFormatting : Bool) (style : FormattingStyle) (kind : FmtKind)
    (out : List OutputToken) : List OutputToken :=
  if ¬ allowFormatting then out
  else mapFirstWord (fun w => formatWord w style kind) out

def applySentenceFormat (pending : Option FmtKind) (style : FormattingStyle)
    (word : String) : String :=
  match pending with
  | none => word
  | some k => formatWord word style k

/-- `consumeNextWord` (stages.ts lines 91-101) as a single step: at full
level the token after the phrase is emitted pre-formatted (with its
trailing punctuation) and skipped; at punctuation level only the phrase
itself is consumed.  Returns the remaining tokens and the new output. -/
def consumeNextStep (aF : Bool) (style : FormattingStyle) (toks : List Token)
    (skip : Nat) (kind : FmtKind) (out : List OutputToken) :
    List Token × List OutputToken :=
  if ¬ aF then (toks.drop skip, out)
  else
    match toks.drop skip with
    | [] => ([], out)
    | next :: rest =>
      if next.word ≠ "" then
        let out1 := OutputToken.word (formatWord next.word style kind) :: out
        (rest, if next.trailing ≠ "" then .punct next.trailing :: out1 else out1)
      else (next :: rest, out)

/-- The token scan of `applyFormattingCommands` (stages.ts lines 120-306).
The output list is kept in reverse order (head = most recent emission);
`fuel` dominates the token count and every branch consumes at least one
token, mirroring the strictly increasing cursor of the source loop. -/
def scanGo (style : FormattingStyle) (aF aD : Bool) :
    Nat → List Token → Option FmtKind → List OutputToken → List OutputToken
  | 0, _, _, out => out
  | _ + 1, [], _, out => out
  | fuel + 1, t :: ts, pending, out =>
    let toks := t :: ts
    if matchKw toks ["new", "line"] then
      scanGo style aF aD fuel (toks.drop 2) none (.newline :: out)
    else if matchKw toks ["full", "stop"] then
      scanGo style aF aD fuel (toks.drop 2) (clearOnPunct pending ".") (.punct "." :: out)
    else if matchKw toks ["question", "mark"] then
      scanGo style aF aD fuel (toks.drop 2) (clearOnPunct pending "?") (.punct "?" :: out)
    else if matchKw toks ["exclamation", "point"] || matchKw toks ["exclamation", "mark"] then
      scanGo style aF aD fuel (toks.drop 2) (clearOnPunct pending "!") (.punct "!" :: out)
    else if t.lower = "comma" then
      scanGo style aF aD fuel ts pending (.punct "," :: out)
    else if t.lower = "period" then
      scanGo style aF aD fuel ts (clearOnPunct pending ".") (.punct "." :: out)
    else if t.lower = "semicolon" then
      scanGo style aF aD fuel ts pending (.punct ";" :: out)
    else if t.lower = "colon" then
      scanGo style aF aD fuel ts pending (.punct ":" :: out)
    else if t.lower = "dash" then
      scanGo style aF aD fuel ts pending (.punct "—" :: out)
    else if t.lower = "ellipsis" then
      scanGo style aF aD fuel ts pending (.punct "..." :: out)
    else if matchKw toks ["delete", "last", "word"] then
      scanGo style aF aD fuel (toks.drop 3) pending (deleteLastWordOp aD out)
    else if matchKw toks ["delete", "the", "last", "word"] ||
        matchKw toks ["delete", "that", "last", "word"] then
      scanGo style aF aD fuel (toks.drop 4) pending (deleteLastWordOp aD out)
    else if matchKw toks ["delete", "last", "sentence"] then
      scanGo style aF aD fuel (toks.drop 3) pending (deleteLastSentenceOp aD out)
    else if matchKw toks ["delete", "the", "last", "sentence"] ||
        matchKw toks ["delete", "that", "last", "sentence"] then
      scanGo style aF aD fuel (toks.drop 4) pending (deleteLastSentenceOp aD out)
    else if matchKw toks ["bold", "last", "word"] || matchKw toks ["last", "word", "bold"] then
      scanGo style aF aD fuel (toks.drop 3) pending (applyToLastWordOp aF style .bold out)
    else if matchKw toks ["italic", "last", "word"] || matchKw toks ["last", "word", "italic"] then
      scanGo style aF aD fuel (toks.drop 3) pending (applyToLastWordOp aF style .italic out)
    else if matchKw toks ["make", "last", "word", "bold"] then
      scanGo style aF aD fuel (toks.drop 4) pending (applyToLastWordOp aF style .bold out)
    else if matchKw toks ["make", "last", "word", "italic"] then
      scanGo style aF aD fuel (toks.drop 4) pending (applyToLastWordOp aF style .italic out)
    else if matchKw toks ["make", "the", "last", "word", "bold"] then
      scanGo style aF aD fuel (toks.drop 5) pending (applyToLastWordOp aF style .bold out)
    else if matchKw toks ["make", "the", "last", "word", "italic"] then
      scanGo style aF aD fuel (toks.drop 5) pending (applyToLastWordOp aF style .italic out)
    else if matchKw toks ["make", "next", "sentence", "bold"] then
      scanGo style aF aD fuel (toks.drop 4) (if aF then some .bold else pending) out
    else if matchKw toks ["make", "next", "sentence", "italic"] then
      scanGo style aF aD fuel (toks.drop 4) (if aF then some .italic else pending) out
    else if matchKw toks ["make", "the", "next", "sentence", "bold"] then
      scanGo style aF aD fuel (toks.drop 5) (if aF then some .bold else pending) out
    else if matchKw toks ["make", "the", "next", "sentence", "italic"] then
      scanGo style aF aD fuel (toks.drop 5) (if aF then some .italic else pending) out
    else if matchKw toks ["next", "sentence", "bold"] || matchKw toks ["bold", "next", "sentence"] then
      scanGo style aF aD fuel (toks.drop 3) (if aF then some .bold else pending) out
    else if matchKw toks ["next", "sentence", "italic"] ||
        matchKw toks ["italic", "next", "sentence"] then
      scanGo style aF aD fuel (toks.drop 3) (if aF then some .italic else pending) out
    else if matchKw toks ["make", "next", "word", "bold"] then
      let s := consumeNextStep aF style toks 4 .bold out
      scanGo style aF aD fuel s.1 pending s.2
    else if matchKw toks ["make", "next", "word", "italic"] then
      let s := consumeNextStep aF style toks 4 .italic out
      scanGo style aF aD fuel s.1 pending s.2
    else if matchKw toks ["make", "the", "next", "word", "bold"] then
      let s := consumeNextStep aF style toks 5 .bold out
      scanGo style aF aD fuel s.1 pending s.2
    else if matchKw toks ["make", "the", "next", "word", "italic"] then
      let s := consumeNextStep aF style toks 5 .italic out
      scanGo style aF aD fuel s.1 pending s.2
    else if matchKw toks ["next", "word", "bold"] then
      let s := consumeNextStep aF style toks 3 .bold out
      scanGo style aF aD fuel s.1 pending s.2
    else if matchKw toks ["next", "word", "italic"] then
      let s := consumeNextStep aF style toks 3 .italic out
      scanGo style aF aD fuel s.1 pending s.2
    else if matchKw toks ["bold", "next", "word"] then
      let s := consumeNextStep aF style toks 3 .bold out
      scanGo style aF aD fuel s.1 pending s.2
    else if matchKw toks ["italic", "next", "word"] then
      let s := consumeNextStep aF style toks 3 .italic out
      scanGo style aF aD fuel s.1 pending s.2
    else
      let out1 := if t.word ≠ "" then .word (applySentenceFormat pending style t.word) :: out else out
      let out2 := if t.trailing ≠ "" then .punct t.trailing :: out1 else out1
      let pending1 := if t.trailing ≠ "" then clearOnPunct pending t.trailing else pending
      scanGo style aF aD fuel ts pending1 out2

/-- The final join of `applyFormattingCommands` (stages.ts lines 308-322):
words append with a trailing space, punctuation and newlines first trim
the accumulated trailing space. -/
def renderOut (out : List OutputToken) : String :=
  jsTrim (out.reverse.foldl
    (fun acc t =>
      match t with
      | .newline => jsTrimEnd acc ++ "\n"
      | .punct p => jsTrimEnd acc ++ p ++ " "
      | .word w => acc ++ w ++ " ")
    "")

/-- `applyFormattingCommands input style level` (stages.ts lines 15-323). -/
def applyFormattingCommands (input : String) (style : FormattingStyle)
    (level : CmdLevel) : String :=
  let raws := splitWs (jsTrim input).data
  if raws.isEmpty then jsTrim input
  else
    let toks := raws.map mkToken
    renderOut (scanGo style (level = .full) (level = .full) toks.length toks none [])

/-! ### Pipeline context and stage list (pipeline/types.ts, domain
schemas, pipeline/pipeline.ts) -/

/-- The mode fields consulted by the pipeline stages and the session
(domain ModeSchema; fields with zod defaults are plain values, optional
ones are `Option`). -/
structure Mode where
  id : String := ""
  shortcutsEnabled : Bool := false
  punctuationNormalization : Option Bool := none
  punctuationCommandsEnabled : Bool := false
  formattingEnabled : Bool := false
  formattingStyle : FormattingStyle := .plain
  rewritePrompt : Option String := none
deriving DecidableEq, Repr

/-- The settings field consulted by the pipeline (SettingsSchema). -/
structure Settings where
  punctuationNormalization : Bool := true
deriving DecidableEq, Repr

structure PipelineContext where
  mode : Option Mode := none
  settings : Settings := {}
  vocabulary : List VocabularyEntry := []
  shortcuts : List ShortcutEntry := []

structure PipelineStage where
  id : String
  enabled : PipelineContext → Bool
  run : String → PipelineContext → String

/-- Whitespace-normalization stage (stages.ts lines 344-357). -/
def whitespaceNormalizationStage : PipelineStage :=
  { id := "whitespace-normalization"
    enabled := fun _ => true
    run := fun input _ => whitespaceNormalizeRun input }

/-- Shortcut stage (stages.ts lines 359-363). -/
def shortcutStage : PipelineStage :=
  { id := "shortcuts"
    enabled := fun ctx =>
      (match ctx.mode with
        | some m => m.shortcutsEnabled
        | none => false) && ¬ ctx.shortcuts.isEmpty
    run := fun input ctx => applyShortcuts input ctx.shortcuts }

/-- Formatting/voice-command stage (stages.ts lines 365-374). -/
def formattingCommandStage : PipelineStage :=
  { id := "formatting-commands"
    enabled := fun ctx =>
      match ctx.mode with
      | some m => m.formattingEnabled || m.punctuationCommandsEnabled
      | none => false
    run := fun input ctx =>
      let style := match ctx.mode with
        | some m => m.formattingStyle
        | none => .plain
      let level : CmdLevel :=
        match ctx.mode with
        | some m => if m.formattingEnabled then .full else .punctuation
        | none => .punctuation
      applyFormattingCommands input style level }

/-- Punctuation-normalization stage (stages.ts lines 376-397). -/
def punctuationNormalizationStage : PipelineStage :=
  { id := "punctuation-normalization"
    enabled := fun ctx =>
      match ctx.mode with
      | some m =>
        match m.punctuationNormalization with
        | some b => b
        | none => ctx.settings.punctuationNormalization
      | none => ctx.settings.punctuationNormalization
    run := fun input _ => punctuationNormalizeRun input }

/-- Vocabulary-replacement stage (stages.ts lines 399-409). -/
def vocabularyReplacementStage : PipelineStage :=
  { id := "vocabulary-replacements"
    enabled := fun ctx => ctx.vocabulary.length > 0
    run := fun input ctx => vocabularyReplaceRun input ctx.vocabulary }

/-- Keyword-command stage: reserved identity pass (stages.ts lines 411-415). -/
def keywordCommandStage : PipelineStage :=
  { id := "keyword-commands"
    enabled := fun _ => true
    run := fun input _ => input }

/-- `DEFAULT_PIPELINE` (pipeline/pipeline.ts lines 11-18). -/
def DEFAULT_PIPELINE : List PipelineStage :=
  [ whitespaceNormalizationStage
  , shortcutStage
  , formattingCommandStage
  , punctuationNormalizationStage
  , vocabularyReplacementStage
  , keywordCommandStage ]

/-- `runPipeline` (pipeline/pipeline.ts lines 20-29): fold the text through
every enabled stage, left to right. -/
def runPipeline (input : String) (ctx : PipelineContext)
    (stages : List PipelineStage) : String :=
  stages.foldl (fun acc stage => if stage.enabled ctx then stage.run acc ctx else acc) input

/-- `applyPipeline` (session.ts lines 91-104): like `runPipeline` but also
returns the identifiers of the stages that ran. -/
def applyPipeline (input : String) (ctx : PipelineContext)
    (stages : List PipelineStage) : String × List String :=
  stages.foldl
    (fun acc stage =>
      if stage.enabled ctx then (stage.run acc.1 ctx, acc.2 ++ [stage.id]) else acc)
    (input, [])

/-! ### Transcription client (transcription/client.ts) -/

/-- ModelSelection (ModelSelectionSchema): tagged choice with an optional
pinned model id. -/
inductive ModelSelection
  | fast
  | accurate
  | meeting
  | pinned (pinnedModelId : Option String)
deriving DecidableEq, Repr

/-- `resolveModel` (client.ts lines 90-101) and the session's identical
`resolveModelId` (session.ts lines 79-89).  A `pinned` selection whose id
is absent — or the empty string, which is equally falsy under the
source's `!parsed.pinnedModelId` test — throws. -/
def resolveModel : ModelSelection → Except String String
  | .pinned none => .error "Pinned model selection requires pinnedModelId"
  | .pinned (some id) =>
    if id = "" then .error "Pinned model selection requires pinnedModelId" else .ok id
  | .fast => .ok "gpt-4o-mini-transcribe"
  | .meeting => .ok "gpt-4o-transcribe-diarize"
  | .accurate => .ok "gpt-4o-transcribe"

def listContainsSeq (needle : List Char) : List Char → Bool
  | [] => needle.isEmpty
  | c :: cs => ciIsPrefixExact needle (c :: cs) || listContainsSeq needle cs
where
  ciIsPrefixExact : List Char → List Char → Bool
    | [], _ => true
    | _ :: _, [] => false
    | a :: as, b :: bs => a = b && ciIsPrefixExact as bs

/-- `modelId.includes('diarize')` (client.ts line 139): the check that
switches the batch request to the diarized response format. -/
def modelIndicatesDiarization (id : String) : Bool :=
  listContainsSeq "diarize".data id.data

/-- Minimum commit size of the realtime protocol (client.ts line 379):
`Math.round(sampleRate * 0.1) * 2` — 100 ms of 16-bit mono audio.  The
rounding of `sampleRate / 10` is half-up, written here in exact integer
arithmetic. -/
def minCommitBytes (sampleRate : Nat) : Nat := ((sampleRate + 5) / 10) * 2

/-- Wire messages of the realtime streaming protocol that carry audio
state (client.ts lines 366-394): base64 "append" frames and the final
"commit". -/
inductive RealtimeMsg
  | append (bytes : Nat)
  | commit
deriving DecidableEq, Repr

/-- Audio-side state of an open realtime handle. -/
structure RealtimeState where
  closed : Bool := false
  bytesSent : Nat := 0
deriving DecidableEq, Repr

/-- `sendAudio` (client.ts lines 367-375): a no-op once closed, otherwise
counts the chunk's bytes and sends one append message. -/
def rtSendAudio (st : RealtimeState) (len : Nat) : RealtimeState × List RealtimeMsg :=
  if st.closed then (st, [])
  else ({ st with bytesSent := st.bytesSent + len }, [.append len])

/-- The commit decision of `finalize()` (client.ts lines 376-394): send
`input_audio_buffer.commit` only when at least `minCommitBytes` were sent. -/
def rtFinalize (sampleRate : Nat) (st : RealtimeState) : RealtimeState × List RealtimeMsg :=
  if st.closed then (st, [])
  else
    ({ st with closed := true },
      if st.bytesSent ≥ minCommitBytes sampleRate then [.commit] else [])

/-- The sequence of `sendAudio` calls of one turn. -/
def rtSendAll : RealtimeState → List Nat → RealtimeState × List RealtimeMsg
  | st, [] => (st, [])
  | st, len :: rest =>
    let p := rtSendAudio st len
    let q := rtSendAll p.1 rest
    (q.1, p.2 ++ q.2)

/-- One turn of the realtime handle: send the given chunks, then finalize.
Returns every audio-side message put on the wire. -/
def rtRun (sampleRate : Nat) (chunks : List Nat) : List RealtimeMsg :=
  let s := rtSendAll {} chunks
  s.2 ++ (rtFinalize sampleRate s.1).2

/-- Defaults of RetryPolicySchema (types.ts lines 105-108). -/
def defaultMaxAttempts : Nat := 2
/-- Default linear-backoff base delay of RetryPolicySchema. -/
def defaultBaseDelayMs : Nat := 200

/-- Outcome of one `transcribeWithFallback` run: the final result, the
number of underlying `transcribe` calls performed, and the waits (in ms)
inserted between attempts. -/
structure RetryOutcome where
  result : Except String String
  calls : Nat
  delays : List Nat
deriving Repr

/-- The retry loop of `transcribeWithFallback` (client.ts lines 479-495),
with the underlying `transcribe` results supplied per call index.
`remaining = maxAttempts - attempt`; after the n-th failure the loop
waits `baseDelayMs * n` unless attempts are exhausted. -/
def retryGo (oracle : Nat → Except String String) (maxAttempts baseDelayMs : Nat) :
    Nat → Nat → List Nat → Option String → RetryOutcome
  | 0, calls, delays, lastError =>
    { result := .error (lastError.getD "Transcription failed"), calls := calls, delays := delays }
  | remaining + 1, calls, delays, _ =>
    match oracle calls with
    | .ok v => { result := .ok v, calls := calls + 1, delays := delays }
    | .error e =>
      if remaining = 0 then { result := .error e, calls := calls + 1, delays := delays }
      else
        retryGo oracle maxAttempts baseDelayMs remaining (calls + 1)
          (delays ++ [baseDelayMs * (maxAttempts - remaining)]) (some e)

/-- `transcribeWithFallback` against an oracle of per-call results. -/
def transcribeWithFallback (oracle : Nat → Except String String)
    (maxAttempts baseDelayMs : Nat) : RetryOutcome :=
  retryGo oracle maxAttempts baseDelayMs maxAttempts 0 [] none

/-! ### Session state machine (speechToText/session.ts)

The session's collaborators (transcription client, insertion, clipboard,
history sink, rewrite, telemetry) are asynchronous injected functions; a
run of `finalize()`/`cancel()` is modelled as a pure function of the
observable per-turn state and an oracle giving each collaborator call's
result.  The run returns the new state, the ordered trace of emitted
events and collaborator calls, and whether the returned promise resolved
(`.ok`) or rejected (`.error`) — the source can reject when
`resolveModelId` throws while building a history record or event
metadata, in which case the tail of the function (including its state
reset) never executes. -/

inductive SessState
  | idle | recording | finalizing | completed | cancelled | error
deriving DecidableEq, Repr

/-- The segment fields the session logic reads (speaker and text; the
numeric start/end offsets are carried but never consulted here). -/
structure DiarizedSegment where
  speaker : Option String := none
  text : String := ""
deriving DecidableEq, Repr

def digitsToNat (l : List Char) : Nat :=
  l.foldl (fun acc c => 10 * acc + (c.toNat - 48)) 0

/-- `/^speaker[_\s]?\d+$/i` (session.ts line 53). -/
def speakerNumPattern (t : String) : Bool :=
  ciIsPrefix "speaker".data t.data &&
  (match t.data.drop 7 with
   | [] => false
   | c :: cs =>
     if c = '_' || isJsWs c then ¬ cs.isEmpty && cs.all (fun x => '0' ≤ x && x ≤ '9')
     else (c :: cs).all (fun x => '0' ≤ x && x ≤ '9'))

/-- `/^speaker\b/i` (session.ts line 57). -/
def speakerBoundaryPattern (t : String) : Bool :=
  ciIsPrefix "speaker".data t.data &&
  (match t.data.drop 7 with
   | [] => true
   | c :: _ => ¬ isWordChar c)

/-- `formatSpeakerLabel` (session.ts lines 49-59). -/
def formatSpeakerLabel (speaker : Option String) (index : Nat) : String :=
  match speaker with
  | none => "Speaker " ++ toString (index + 1)
  | some s =>
    let t := jsTrim s
    if t = "" then "Speaker " ++ toString (index + 1)
    else if speakerNumPattern t then
      let digits := t.data.filter (fun c => '0' ≤ c && c ≤ '9')
      if digits.isEmpty then "Speaker"
      else "Speaker " ++ toString (digitsToNat digits + 1)
    else if speakerBoundaryPattern t then t
    else "Speaker " ++ t

def updateLast (f : String → String) : List String → List String
  | [] => []
  | [x] => [f x]
  | x :: xs => x :: updateLast f xs

def bdtGo : List DiarizedSegment → Nat → List String → String → List String
  | [], _, lines, _ => lines
  | seg :: rest, idx, lines, lastLabel =>
    let label := formatSpeakerLabel seg.speaker idx
    let text := jsTrim seg.text
    if text = "" then bdtGo rest (idx + 1) lines lastLabel
    else if ¬ lines.isEmpty && label = lastLabel then
      bdtGo rest (idx + 1) (updateLast (fun last => jsTrim (last ++ " " ++ text)) lines) lastLabel
    else bdtGo rest (idx + 1) (lines ++ [jsTrim (label ++ ": " ++ text)]) label

/-- `buildDiarizedTranscript` (session.ts lines 61-77): one line per
speaker change, consecutive same-label segments merged. -/
def buildDiarizedTranscript (segments : List DiarizedSegment) : String :=
  String.intercalate "\n" (bdtGo segments 0 [] "")

/-- An event delivered by the open stream, already validated by
TranscriptionEventSchema (kind partial/final, text; the batch path also
carries diarized segments). -/
structure TranscriptionEvent where
  isFinal : Bool
  text : String
  segments : List DiarizedSegment := []
deriving DecidableEq, Repr

def listIsPrefix : List Char → List Char → Bool
  | [], _ => true
  | _ :: _, [] => false
  | a :: as, b :: bs => a = b && listIsPrefix as bs

/-- JS `s.startsWith(p)`. -/
def strIsPrefix (p s : String) : Bool := listIsPrefix p.data s.data

/-- Final-text accumulation of the streaming event handler (session.ts
lines 165-176): the first final (or any final while the held text is the
falsy empty string) is stored; a final extending the held text replaces
it; a final that is a prefix of the held text is ignored; anything else
is appended after a single space and the concatenation trimmed. -/
def accumFinal : Option String → String → Option String
  | none, t => some t
  | some c, t =>
    if c = "" then some t
    else if strIsPrefix c t then some t
    else if strIsPrefix t c then some c
    else some (jsTrim (c ++ " " ++ t))

/-- The configuration fields `finalize`/`cancel` consult
(TranscriptionConfigSchema; language/sampleRate/latency hints are passed
through to the client but never branch the session logic). -/
structure TranscriptionConfig where
  model : ModelSelection
  streamingEnabled : Bool := true
deriving DecidableEq, Repr

/-- Observable per-turn session state between calls. -/
structure SessionSt where
  state : SessState := .idle
  config : Option TranscriptionConfig := none
  finalText : Option String := none
  streamingText : Option String := none
  diarizedSegments : Option (List DiarizedSegment) := none
  rawTranscriptText : Option String := none
  streamingHandle : Bool := false
  streamingFailed : Bool := false
  audioDurationMs : Nat := 0
deriving DecidableEq, Repr

/-- `reset()` (session.ts lines 132-145): clears every per-turn field but
leaves `state` alone. -/
def resetSt (st : SessionSt) : SessionSt := { state := st.state }

inductive InsertionMethod | accessibility | clipboardPaste
deriving DecidableEq, Repr

inductive InsertionOutcome
  | inserted (method : InsertionMethod)
  | clipboard
  | failed
deriving DecidableEq, Repr

inductive COutcome
  | done (insertion : InsertionOutcome)
  | err (code message : String)
  | cancelled
deriving DecidableEq, Repr

inductive SEvent
  | errorEv (code message : String)
  | finalTranscript (text : String) (modelId : String)
  | completed (outcome : COutcome)
deriving DecidableEq, Repr

/-- Externally visible steps of a run, in order: emitted events and
collaborator invocations. -/
inductive Action
  | emit (e : SEvent)
  | insertAttempt (text : String)
  | clipboardSet (text : String)
  | historyAdd (status : String) (text : String) (errorCode : Option String)
  | telemetryAdd
  | streamCancel
deriving DecidableEq, Repr

structure InsertResult where
  success : Bool
  method : InsertionMethod
deriving DecidableEq, Repr

/-- Results the collaborators return during one finalize/cancel run.
`clipboardRes1`/`clipboardRes2` are the first and second clipboard
invocation of the run (the source may call the clipboard twice: once in
the non-success branch and once more in the surrounding catch). -/
structure FinalizeOracle where
  streamFinalizeRes : Except String Unit := .ok ()
  batchRes : Except String (List TranscriptionEvent) := .ok []
  rewriteRes : Except String String := .ok ""
  insertRes : Except String InsertResult := .ok ⟨true, .accessibility⟩
  clipboardRes1 : Except String Unit := .ok ()
  clipboardRes2 : Except String Unit := .ok ()
  historyRes : Except String Unit := .ok ()

/-- The injected dependencies' shape, as far as control flow reads it. -/
structure SessionDeps where
  pipelineContext : PipelineContext := {}
  pipelineStages : Option (List PipelineStage) := none
  rewriteConfigured : Bool := false
  telemetryConfigured : Bool := false

structure RunOut where
  st : SessionSt
  tr : List Action
  res : Except String Unit

/-- JS falsiness of a nullable string: `null`/`undefined` or `""`. -/
def jsFalsyOptStr : Option String → Bool
  | none => true
  | some t => t = ""

/-- `config ? resolveModelId(config.model) : undefined` — may throw. -/
def modelIdOpt : Option TranscriptionConfig → Except String (Option String)
  | none => .ok none
  | some c => (resolveModel c.model).map some

/-- `config ? resolveModelId(config.model) : 'unknown'` — may throw. -/
def modelIdEmit : Option TranscriptionConfig → Except String String
  | none => .ok "unknown"
  | some c => resolveModel c.model

/-- `finalizeWithError` (session.ts lines 199-229): enter the error
state, emit the error event, attempt (best effort) a failed-status
history record, then emit the terminal completed event.  Building the
history record resolves the model id and can throw, rejecting the run. -/
def finalizeWithErrorRun (st : SessionSt) (tr : List Action)
    (code message : String) : RunOut :=
  match modelIdOpt st.config with
  | .error e =>
    ⟨{ st with state := SessState.error },
      tr ++ [Action.emit (.errorEv code message)], .error e⟩
  | .ok _ =>
    ⟨{ st with state := SessState.error },
      tr ++ [Action.emit (.errorEv code message)] ++
        [Action.historyAdd "failed" "" (some code)] ++
        [Action.emit (.completed (.err code message))],
      .ok ()⟩

/-- The `await finalizeWithError(...); reset(); state = 'idle'; return`
pattern of the fatal paths: the reset to idle runs only if
`finalizeWithError` resolved. -/
def exitViaError (r : RunOut) : RunOut :=
  match r.res with
  | .ok _ => ⟨{ resetSt r.st with state := .idle }, r.tr, .ok ()⟩
  | .error _ => r

/-- The batch-reconciliation phase of `finalize` (session.ts lines
359-391).  `.error` carries a finished run (fatal `transcription_failed`
exit); `.ok` carries the updated state to continue with. -/
def batchPhase (o : FinalizeOracle) (streamingOn : Bool) (st : SessionSt)
    (tr : List Action) : Except RunOut (SessionSt × List Action) :=
  if streamingOn then
    match o.batchRes with
    | .ok events =>
      let fe := events.find? (·.isFinal)
      let st := match fe with
        | some ev =>
          let st1 := if ev.text ≠ "" then { st with finalText := some ev.text } else st
          if ¬ ev.segments.isEmpty then { st1 with diarizedSegments := some ev.segments }
          else st1
        | none => st
      .ok (st, tr)
    | .error e =>
      if jsFalsyOptStr st.finalText && jsFalsyOptStr st.streamingText then
        .error (exitViaError (finalizeWithErrorRun st tr "transcription_failed" e))
      else .ok (st, tr)
  else if jsFalsyOptStr st.finalText || st.streamingFailed then
    match o.batchRes with
    | .ok events =>
      let fe := events.find? (·.isFinal)
      let st1 := { st with finalText := some ((fe.map (·.text)).getD "") }
      let st2 := match fe with
        | some ev =>
          if ¬ ev.segments.isEmpty then { st1 with diarizedSegments := some ev.segments }
          else st1
        | none => st1
      .ok (st2, tr)
    | .error e =>
      .error (exitViaError (finalizeWithErrorRun st tr "transcription_failed" e))
  else .ok (st, tr)

/-- The insertion phase (session.ts lines 442-462): direct insertion,
clipboard fallback, clipboard retry in the catch, `insert_failed` exit. -/
def insertPhase (o : FinalizeOracle) (st : SessionSt) (tr : List Action)
    (text : String) : Except RunOut (InsertionOutcome × List Action) :=
  let tr := tr ++ [Action.insertAttempt text]
  match o.insertRes with
  | .ok r =>
    if r.success then .ok (.inserted r.method, tr)
    else
      let tr := tr ++ [Action.clipboardSet text]
      match o.clipboardRes1 with
      | .ok _ => .ok (.clipboard, tr)
      | .error _ =>
        let tr := tr ++ [Action.clipboardSet text]
        match o.clipboardRes2 with
        | .ok _ => .ok (.clipboard, tr)
        | .error e2 => .error (exitViaError (finalizeWithErrorRun st tr "insert_failed" e2))
  | .error _ =>
    let tr := tr ++ [Action.clipboardSet text]
    match o.clipboardRes1 with
    | .ok _ => .ok (.clipboard, tr)
    | .error e => .error (exitViaError (finalizeWithErrorRun st tr "insert_failed" e))

/-- Whether the rewrite collaborator runs: a configured rewrite function
and a mode rewrite prompt that trims non-empty (session.ts lines 408-409). -/
def rewriteActive (deps : SessionDeps) : Bool :=
  deps.rewriteConfigured &&
  (match deps.pipelineContext.mode with
   | some m => jsTrim (m.rewritePrompt.getD "") ≠ ""
   | none => false)

structure MidOut where
  st : SessionSt
  tr : List Action
  text : String

/-- Raw-transcript bookkeeping, diarized rendering, pipeline and optional
rewrite (session.ts lines 393-429): pure state/trace threading; a
rewrite failure only emits a non-fatal event. -/
def midPhase (deps : SessionDeps) (o : FinalizeOracle) (st : SessionSt)
    (tr : List Action) : MidOut :=
  let st1 := { st with rawTranscriptText := some (st.finalText.getD "") }
  let st2 :=
    match st1.diarizedSegments with
    | some segs =>
      if ¬ segs.isEmpty then
        let dt := buildDiarizedTranscript segs
        if dt ≠ "" then
          { st1 with
            rawTranscriptText :=
              some (if st1.rawTranscriptText.getD "" ≠ "" then st1.rawTranscriptText.getD ""
                    else dt)
            finalText := some dt }
        else st1
      else st1
    | none => st1
  let stages := deps.pipelineStages.getD DEFAULT_PIPELINE
  let pl := applyPipeline (st2.finalText.getD "") deps.pipelineContext stages
  if rewriteActive deps then
    match o.rewriteRes with
    | .ok r => if jsTrim r ≠ "" then ⟨st2, tr, jsTrim r⟩ else ⟨st2, tr, pl.1⟩
    | .error e => ⟨st2, tr ++ [Action.emit (.errorEv "rewrite_failed" e)], pl.1⟩
  else ⟨st2, tr, pl.1⟩

/-- The tail of `finalize` (session.ts lines 431-471): emit the
`finalTranscript` event (whose metadata resolves the model id and can
throw, rejecting the run before insertion), run the insertion phase,
write the success history record, emit the terminal event, reset. -/
def emitInsertHistory (deps : SessionDeps) (o : FinalizeOracle) (st : SessionSt)
    (tr : List Action) (text : String) : RunOut :=
  match modelIdEmit st.config with
  | .error e => ⟨st, tr, .error e⟩
  | .ok mid =>
    let tr1 := tr ++ [Action.emit (.finalTranscript text mid)]
    match insertPhase o st tr1 text with
    | .error r => r
    | .ok (insertion, tr2) =>
      let tr3 := tr2 ++ [Action.historyAdd "success" text none]
      match o.historyRes with
      | .error e =>
        ⟨{ resetSt st with state := .idle },
          tr3 ++ [Action.emit (.errorEv "history_failed" e),
                  Action.emit (.completed (.err "history_failed" e))],
          .ok ()⟩
      | .ok _ =>
        ⟨{ resetSt st with state := .idle },
          (if deps.telemetryConfigured then tr3 ++ [Action.telemetryAdd] else tr3) ++
            [Action.emit (.completed (.done insertion))],
          .ok ()⟩

/-- `config?.streamingEnabled` as read throughout `finalize`. -/
def streamingOnOf (st : SessionSt) : Bool :=
  match st.config with
  | some c => c.streamingEnabled
  | none => false

/-- The stream's own finalize at the top of `finalize()` (session.ts
lines 346-357); its failure is recorded but non-fatal. -/
def streamFinalizePhase (o : FinalizeOracle) (streamingOn : Bool) (st : SessionSt) :
    SessionSt × List Action :=
  if streamingOn && st.streamingHandle then
    match o.streamFinalizeRes with
    | .ok _ => (st, [])
    | .error e =>
      ({ st with streamingFailed := true },
        [Action.emit (.errorEv "streaming_unavailable" e)])
  else (st, [])

/-- The body of `finalize()` once the recording guard has passed and the
state moved to finalizing. -/
def finalizeAfterGuard (deps : SessionDeps) (o : FinalizeOracle) (st : SessionSt) : RunOut :=
  match batchPhase o (streamingOnOf st)
      (streamFinalizePhase o (streamingOnOf st) st).1
      (streamFinalizePhase o (streamingOnOf st) st).2 with
  | .error r => r
  | .ok (st2, tr2) =>
    emitInsertHistory deps o (midPhase deps o st2 tr2).st (midPhase deps o st2 tr2).tr
      (midPhase deps o st2 tr2).text

/-- `finalize()` (session.ts lines 328-472). -/
def finalizeRun (deps : SessionDeps) (o : FinalizeOracle) (st0 : SessionSt) : RunOut :=
  if st0.state ≠ .recording then ⟨st0, [], .ok ()⟩
  else finalizeAfterGuard deps o { st0 with state := .finalizing }

/-- `cancel()` (session.ts lines 474-502): close the stream, write a
best-effort cancelled history record (resolving the model id first,
which can throw), emit the terminal event, reset to idle. -/
def cancelRun (st0 : SessionSt) : RunOut :=
  if st0.state = .idle then ⟨st0, [], .ok ()⟩
  else
    match modelIdOpt st0.config with
    | .error e =>
      ⟨{ st0 with state := .cancelled },
        (if st0.streamingHandle then [Action.streamCancel] else []), .error e⟩
    | .ok _ =>
      ⟨{ resetSt st0 with state := .idle },
        (if st0.streamingHandle then [Action.streamCancel] else []) ++
          [Action.historyAdd "cancelled" "" none,
           Action.emit (.completed .cancelled)], .ok ()⟩

def emittedEvents (tr : List Action) : List SEvent :=
  tr.filterMap (fun a => match a with | .emit e => some e | _ => none)

/-- The run's last emitted event is a terminal `completed` event. -/
def endsWithCompleted (tr : List Action) : Bool :=
  match (emittedEvents tr).getLast? with
  | some (.completed _) => true
  | _ => false

/-! ## Support lemmas -/

theorem rtSendAll_open (chunks : List Nat) : ∀ (b : Nat),
    rtSendAll { closed := false, bytesSent := b } chunks =
      ({ closed := false, bytesSent := b + chunks.sum },
        chunks.map RealtimeMsg.append) := by
  induction chunks with
  | nil => intro b; simp [rtSendAll]
  | cons x xs ih =>
    intro b
    simp only [rtSendAll, rtSendAudio, List.map_cons, List.sum_cons]
    rw [if_neg (by simp)]
    simp only [ih (b + x)]
    simp [Nat.add_assoc, Nat.add_comm x xs.sum]

/-- `rtRun` in closed form: the appends, then the commit exactly when the
byte total reaches the threshold. -/
theorem rtRun_eq (sr : Nat) (chunks : List Nat) :
    rtRun sr chunks =
      chunks.map RealtimeMsg.append ++
        (if chunks.sum ≥ minCommitBytes sr then [RealtimeMsg.commit] else []) := by
  unfold rtRun
  rw [show ({} : RealtimeState) = { closed := false, bytesSent := 0 } from rfl,
    rtSendAll_open]
  simp [rtFinalize]

theorem vocab_step_empty (e : VocabularyEntry) :
    (if e.source = "" then ("" : String) else wbReplaceAll e.source e.replacement "") = "" := by
  split
  · rfl
  · rfl

theorem vocab_run_empty : ∀ vocab, vocabularyReplaceRun "" vocab = ""
  | [] => rfl
  | e :: es => by
    unfold vocabularyReplaceRun
    rw [List.foldl_cons]
    show vocabularyReplaceRun (if e.source = "" then "" else wbReplaceAll _ _ "") es = ""
    rw [vocab_step_empty e]
    exact vocab_run_empty es

theorem applyPipeline_fold_empty (ctx : PipelineContext) :
    ∀ (stages : List PipelineStage), (∀ s ∈ stages, s.run "" ctx = "") →
    ∀ (acc : List String),
      (List.foldl
        (fun (acc : String × List String) stage =>
          if stage.enabled ctx then (stage.run acc.1 ctx, acc.2 ++ [stage.id]) else acc)
        ("", acc) stages).1 = ""
  | [], _, _ => rfl
  | s :: ss, h, acc => by
    rw [List.foldl_cons]
    have hs : s.run "" ctx = "" := h s (by simp)
    have hss : ∀ x ∈ ss, x.run "" ctx = "" := fun x hx => h x (by simp [hx])
    by_cases he : s.enabled ctx
    · simp only [he, if_pos, hs]
      exact applyPipeline_fold_empty ctx ss hss _
    · simp only [he, if_neg, Bool.false_eq_true, if_false]
      exact applyPipeline_fold_empty ctx ss hss _

/-- Every default stage maps the empty transcript to the empty string, so
the default pipeline does too. -/
theorem default_pipeline_empty (ctx : PipelineContext) :
    (applyPipeline "" ctx DEFAULT_PIPELINE).1 = "" := by
  apply applyPipeline_fold_empty
  intro s hs
  simp only [DEFAULT_PIPELINE, List.mem_cons, List.not_mem_nil, or_false] at hs
  rcases hs with rfl | rfl | rfl | rfl | rfl | rfl
  · rfl
  · rfl
  · rfl
  · rfl
  · exact vocab_run_empty _
  · rfl

theorem emittedEvents_append (l1 l2 : List Action) :
    emittedEvents (l1 ++ l2) = emittedEvents l1 ++ emittedEvents l2 :=
  List.filterMap_append l1 l2 _

theorem endsWithCompleted_append (tr tail : List Action)
    (h : endsWithCompleted tail = true) :
    endsWithCompleted (tr ++ tail) = true := by
  unfold endsWithCompleted at *
  rw [emittedEvents_append, List.getLast?_append]
  rcases hl : (emittedEvents tail).getLast? with _ | ev
  · rw [hl] at h; simp at h
  · rw [hl] at h
    cases ev <;> simp_all [Option.or]

theorem endsWithCompleted_snoc (tr : List Action) (x : COutcome) :
    endsWithCompleted (tr ++ [Action.emit (.completed x)]) = true := by
  apply endsWithCompleted_append
  rfl

/-- Any resolving error exit (`finalizeWithError` then reset) lands in
idle with a terminal completed event last. -/
theorem exitViaError_ok_shape (st : SessionSt) (tr : List Action) (code msg : String)
    (h : (exitViaError (finalizeWithErrorRun st tr code msg)).res = .ok ()) :
    (exitViaError (finalizeWithErrorRun st tr code msg)).st.state = .idle ∧
    endsWithCompleted (exitViaError (finalizeWithErrorRun st tr code msg)).tr = true := by
  rcases hm : modelIdOpt st.config with e | m
  · simp only [exitViaError, finalizeWithErrorRun, hm] at h
    cases h
  · constructor
    · simp only [exitViaError, finalizeWithErrorRun, hm]
    · simp only [exitViaError, finalizeWithErrorRun, hm]
      exact endsWithCompleted_snoc _ _

/-- A fatal exit of the batch phase, when it resolves, lands in idle with
a terminal completed event. -/
theorem batchPhase_error_ok (o : FinalizeOracle) (so : Bool) (st : SessionSt)
    (tr : List Action) (r : RunOut) (h : batchPhase o so st tr = .error r)
    (hres : r.res = .ok ()) :
    r.st.state = .idle ∧ endsWithCompleted r.tr = true := by
  unfold batchPhase at h
  split at h
  · split at h
    · cases h
    · split at h
      · cases h
        exact exitViaError_ok_shape _ _ _ _ hres
      · cases h
  · split at h
    · split at h
      · cases h
      · cases h
        exact exitViaError_ok_shape _ _ _ _ hres
    · cases h

/-- A fatal exit of the insertion phase, when it resolves, lands in idle
with a terminal completed event. -/
theorem insertPhase_error_ok (o : FinalizeOracle) (st : SessionSt) (tr : List Action)
    (text : String) (r : RunOut) (h : insertPhase o st tr text = .error r)
    (hres : r.res = .ok ()) :
    r.st.state = .idle ∧ endsWithCompleted r.tr = true := by
  unfold insertPhase at h
  split at h
  · split at h
    · cases h
    · split at h
      · cases h
      · split at h
        · cases h
        · cases h
          exact exitViaError_ok_shape _ _ _ _ hres
  · split at h
    · cases h
    · cases h
      exact exitViaError_ok_shape _ _ _ _ hres

/-- The finalize tail, whenever it resolves, lands in idle with a
terminal completed event last. -/
theorem emitInsertHistory_ok_shape (deps : SessionDeps) (o : FinalizeOracle)
    (st : SessionSt) (tr : List Action) (text : String)
    (hres : (emitInsertHistory deps o st tr text).res = .ok ()) :
    (emitInsertHistory deps o st tr text).st.state = .idle ∧
    endsWithCompleted (emitInsertHistory deps o st tr text).tr = true := by
  rcases hm : modelIdEmit st.config with e | mid
  · simp only [emitInsertHistory, hm] at hres
    cases hres
  · rcases hi : insertPhase o st (tr ++ [Action.emit (.finalTranscript text mid)]) text
      with r | ⟨insertion, tr2⟩
    · simp only [emitInsertHistory, hm, hi] at hres ⊢
      exact insertPhase_error_ok _ _ _ _ _ hi hres
    · rcases hh : o.historyRes with e | u
      · simp only [emitInsertHistory, hm, hi, hh]
        exact ⟨trivial, endsWithCompleted_append _ _ rfl⟩
      · simp only [emitInsertHistory, hm, hi, hh]
        exact ⟨trivial, endsWithCompleted_snoc _ _⟩

/-- The guarded finalize body, whenever it resolves, lands in idle with a
terminal completed event last. -/
theorem finalizeAfterGuard_ok_shape (deps : SessionDeps) (o : FinalizeOracle)
    (st : SessionSt)
    (hres : (finalizeAfterGuard deps o st).res = .ok ()) :
    (finalizeAfterGuard deps o st).st.state = .idle ∧
    endsWithCompleted (finalizeAfterGuard deps o st).tr = true := by
  rcases hb : batchPhase o (streamingOnOf st)
      (streamFinalizePhase o (streamingOnOf st) st).1
      (streamFinalizePhase o (streamingOnOf st) st).2 with r | p
  · simp only [finalizeAfterGuard, hb] at hres ⊢
    exact batchPhase_error_ok _ _ _ _ _ hb hres
  · obtain ⟨st2, tr2⟩ := p
    simp only [finalizeAfterGuard, hb] at hres ⊢
    exact emitInsertHistory_ok_shape _ _ _ _ _ hres

theorem modelIdOpt_of_emit (cfg : Option TranscriptionConfig) (mid : String)
    (h : modelIdEmit cfg = .ok mid) : ∃ m, modelIdOpt cfg = .ok m := by
  cases cfg with
  | none => exact ⟨none, rfl⟩
  | some c =>
    simp only [modelIdEmit] at h
    exact ⟨some mid, by simp [modelIdOpt, h, Except.map]⟩

/-- Trace shape of the finalize tail when the model id resolves: the run
lands in idle, insertion is attempted with the processed text, and every
error event it adds beyond the incoming trace is `insert_failed` or
`history_failed`. -/
theorem eih_shape (deps : SessionDeps) (o : FinalizeOracle)
    (st : SessionSt) (tr : List Action) (text mid : String)
    (hmid : modelIdEmit st.config = .ok mid) :
    (emitInsertHistory deps o st tr text).st.state = .idle ∧
    Action.insertAttempt text ∈ (emitInsertHistory deps o st tr text).tr ∧
    ∀ code msg, Action.emit (.errorEv code msg) ∈ (emitInsertHistory deps o st tr text).tr →
      Action.emit (.errorEv code msg) ∈ tr ∨ code = "insert_failed" ∨ code = "history_failed" := by
  obtain ⟨m, hmo⟩ := modelIdOpt_of_emit st.config mid hmid
  rcases hi : o.insertRes with e | r
  all_goals rcases h1 : o.clipboardRes1 with e1 | u1
  all_goals rcases h2 : o.clipboardRes2 with e2 | u2
  all_goals rcases hh : o.historyRes with eh | uh
  all_goals try rcases hs : r.success with _ | _
  all_goals by_cases ht : deps.telemetryConfigured
  all_goals refine ⟨?_, ?_, ?_⟩
  all_goals first
    | (intro code msg hmem
       first
        | simp [emitInsertHistory, hmid, insertPhase, exitViaError, finalizeWithErrorRun,
            hmo, hi, h1, h2, hh, hs, ht] at hmem
        | simp [emitInsertHistory, hmid, insertPhase, exitViaError, finalizeWithErrorRun,
            hmo, hi, h1, h2, hh, ht] at hmem
       try tauto)
    | simp [emitInsertHistory, hmid, insertPhase, exitViaError, finalizeWithErrorRun,
        hmo, hi, h1, h2, hh, hs, ht]
    | simp [emitInsertHistory, hmid, insertPhase, exitViaError, finalizeWithErrorRun,
        hmo, hi, h1, h2, hh, ht]

theorem jsFalsy_getD (x : Option String) (h : jsFalsyOptStr x = true) : x.getD "" = "" := by
  cases x <;> simp_all [jsFalsyOptStr]

/-! ## Theorems -/

/-- C1 counterexample: a streaming turn in which both the stream's
finalize and the supplementary batch call fail while NO text of any kind
was ever observed (no final, no partial) IS discarded: the run emits
`transcription_failed`, records a failed history item, ends in the
error-completed event, and never attempts insertion — contradicting the
claim that such a turn proceeds to insert the empty string. -/
theorem finalize_no_text_no_partial_fails_fatally :
    (finalizeRun {}
        { streamFinalizeRes := .error "ws closed", batchRes := .error "http 500" }
        { state := .recording, config := some { model := .fast, streamingEnabled := true },
          streamingHandle := true }).tr =
      [Action.emit (.errorEv "streaming_unavailable" "ws closed"),
       Action.emit (.errorEv "transcription_failed" "http 500"),
       Action.historyAdd "failed" "" (some "transcription_failed"),
       Action.emit (.completed (.err "transcription_failed" "http 500"))] ∧
    (finalizeRun {}
        { streamFinalizeRes := .error "ws closed", batchRes := .error "http 500" }
        { state := .recording, config := some { model := .fast, streamingEnabled := true },
          streamingHandle := true }).tr.all
      (fun a => match a with
        | .insertAttempt _ => false
        | _ => true) = true := by
  constructor
  · decide
  · decide

/-- C1 (amended): when both the stream's finalize and the supplementary
batch call fail, the turn survives only if some text was observed.  If
no final text was seen but at least one partial transcript was (and no
diarized segments, default stages, no rewrite), the pipeline runs on the
empty string and insertion is attempted with that empty string, with no
`transcription_failed` error, ending idle.  If neither a final nor a
partial was ever observed, the turn fails fatally with
`transcription_failed` and insertion is never attempted. -/
theorem finalize_both_fail_fallback (deps : SessionDeps) (o : FinalizeOracle)
    (st : SessionSt) (c : TranscriptionConfig) (e1 e2 mid : String)
    (hst : st.state = .recording)
    (hc : st.config = some c)
    (hstream : c.streamingEnabled = true)
    (hhdl : st.streamingHandle = true)
    (hsf : o.streamFinalizeRes = .error e1)
    (hb : o.batchRes = .error e2)
    (hft : jsFalsyOptStr st.finalText = true)
    (hseg : st.diarizedSegments = none)
    (hstages : deps.pipelineStages = none)
    (hrw : rewriteActive deps = false)
    (hmid : resolveModel c.model = .ok mid) :
    (∀ s, st.streamingText = some s → s ≠ "" →
      Action.insertAttempt "" ∈ (finalizeRun deps o st).tr ∧
      (∀ msg, Action.emit (.errorEv "transcription_failed" msg) ∉ (finalizeRun deps o st).tr) ∧
      (finalizeRun deps o st).st.state = .idle) ∧
    (jsFalsyOptStr st.streamingText = true →
      Action.emit (.errorEv "transcription_failed" e2) ∈ (finalizeRun deps o st).tr ∧
      (∀ t, Action.insertAttempt t ∉ (finalizeRun deps o st).tr)) := by
  have hfg : finalizeRun deps o st =
      finalizeAfterGuard deps o { st with state := .finalizing } := by
    unfold finalizeRun
    rw [if_neg (by simp [hst])]
  have hso : streamingOnOf { st with state := .finalizing } = true := by
    simp [streamingOnOf, hc, hstream]
  have hsp : streamFinalizePhase o (streamingOnOf { st with state := .finalizing })
      { st with state := .finalizing } =
      ({ st with
          state := .finalizing
          streamingFailed := true },
        [Action.emit (.errorEv "streaming_unavailable" e1)]) := by
    rw [hso]
    simp [streamFinalizePhase, hhdl, hsf]
  constructor
  · intro s hpt hs
    have hbp : batchPhase o (streamingOnOf { st with state := .finalizing })
        (streamFinalizePhase o (streamingOnOf { st with state := .finalizing })
          { st with state := .finalizing }).1
        (streamFinalizePhase o (streamingOnOf { st with state := .finalizing })
          { st with state := .finalizing }).2 =
        .ok ({ st with
            state := .finalizing
            streamingFailed := true },
          [Action.emit (.errorEv "streaming_unavailable" e1)]) := by
      rw [hsp, hso]
      simp [batchPhase, hb, hft, hpt, hs, jsFalsyOptStr]
    have hmp : midPhase deps o
        { st with
          state := .finalizing
          streamingFailed := true }
        [Action.emit (.errorEv "streaming_unavailable" e1)] =
        ⟨{ st with
            state := .finalizing
            streamingFailed := true
            rawTranscriptText := some "" },
          [Action.emit (.errorEv "streaming_unavailable" e1)], ""⟩ := by
      simp [midPhase, hseg, hstages, hrw, jsFalsy_getD _ hft, default_pipeline_empty]
    have hrun : finalizeRun deps o st =
        emitInsertHistory deps o
          { st with
            state := .finalizing
            streamingFailed := true
            rawTranscriptText := some "" }
          [Action.emit (.errorEv "streaming_unavailable" e1)] "" := by
      rw [hfg]
      unfold finalizeAfterGuard
      rw [hbp]
      simp only [hmp]
    have hmide : modelIdEmit
        ({ st with
          state := .finalizing
          streamingFailed := true
          rawTranscriptText := some "" } : SessionSt).config = .ok mid := by
      simp [modelIdEmit, hc, hmid]
    obtain ⟨hidle, hmem, hcodes⟩ := eih_shape deps o _ _ "" mid hmide
    rw [hrun]
    refine ⟨hmem, ?_, hidle⟩
    intro msg hmemtf
    have := hcodes "transcription_failed" msg hmemtf
    simp at this
  · intro hptf
    have hbp2 : batchPhase o (streamingOnOf { st with state := .finalizing })
        (streamFinalizePhase o (streamingOnOf { st with state := .finalizing })
          { st with state := .finalizing }).1
        (streamFinalizePhase o (streamingOnOf { st with state := .finalizing })
          { st with state := .finalizing }).2 =
        .error (exitViaError (finalizeWithErrorRun
          { st with
            state := .finalizing
            streamingFailed := true }
          [Action.emit (.errorEv "streaming_unavailable" e1)]
          "transcription_failed" e2)) := by
      rw [hsp, hso]
      simp [batchPhase, hb, hft, hptf]
    have hmo : modelIdOpt
        ({ st with
          state := .finalizing
          streamingFailed := true } : SessionSt).config =
        .ok (some mid) := by
      simp [modelIdOpt, hc, hmid, Except.map]
    have hrun2 : finalizeRun deps o st =
        exitViaError (finalizeWithErrorRun
          { st with
            state := .finalizing
            streamingFailed := true }
          [Action.emit (.errorEv "streaming_unavailable" e1)]
          "transcription_failed" e2) := by
      rw [hfg]
      unfold finalizeAfterGuard
      rw [hbp2]
      try rfl
    rw [hrun2]
    constructor
    · simp [exitViaError, finalizeWithErrorRun, hmo]
    · intro t
      simp [exitViaError, finalizeWithErrorRun, hmo]

/-- Witness for C1's amended theorem: a concrete streaming turn where
both calls fail but the partial "hi" was observed — insertion is
attempted with the empty string and the turn ends idle. -/
theorem finalize_both_fail_fallback_witness :
    Action.insertAttempt "" ∈ (finalizeRun {}
      { streamFinalizeRes := .error "ws closed", batchRes := .error "http 500" }
      { state := .recording, config := some { model := .fast, streamingEnabled := true },
        streamingHandle := true, streamingText := some "hi" }).tr ∧
    (finalizeRun {}
      { streamFinalizeRes := .error "ws closed", batchRes := .error "http 500" }
      { state := .recording, config := some { model := .fast, streamingEnabled := true },
        streamingHandle := true, streamingText := some "hi" }).st.state = SessState.idle := by
  obtain ⟨hA, _⟩ := finalize_both_fail_fallback {}
    { streamFinalizeRes := .error "ws closed", batchRes := .error "http 500" }
    { state := .recording, config := some { model := .fast, streamingEnabled := true },
      streamingHandle := true, streamingText := some "hi" }
    { model := .fast, streamingEnabled := true }
    "ws closed" "http 500" "gpt-4o-mini-transcribe"
    rfl rfl rfl rfl rfl rfl rfl rfl rfl rfl rfl
  obtain ⟨h1, _, h3⟩ := hA "hi" rfl (by decide)
  exact ⟨h1, h3⟩

/-- C2: every terminal outcome resets the session to idle.  Whenever
`finalize()` (from recording) or `cancel()` (from any non-idle state)
resolves, the resulting state is idle and the last emitted event is the
terminal `completed` event; `cancel()` from idle is a no-op that stays
idle.  So completed/cancelled/error are never durable states. -/
theorem session_terminal_resets_to_idle (deps : SessionDeps) (o : FinalizeOracle)
    (st : SessionSt) :
    (st.state = .recording →
      (finalizeRun deps o st).res = .ok () →
      (finalizeRun deps o st).st.state = .idle ∧
        endsWithCompleted (finalizeRun deps o st).tr = true) ∧
    (st.state ≠ .idle →
      (cancelRun st).res = .ok () →
      (cancelRun st).st.state = .idle ∧ endsWithCompleted (cancelRun st).tr = true) ∧
    (st.state = .idle → (cancelRun st).st.state = .idle) := by
  refine ⟨?_, ?_, ?_⟩
  · intro hrec
    have heq : finalizeRun deps o st =
        finalizeAfterGuard deps o { st with state := .finalizing } := by
      unfold finalizeRun
      rw [if_neg (by simp [hrec])]
    rw [heq]
    exact finalizeAfterGuard_ok_shape deps o _
  · intro hni
    rcases hm : modelIdOpt st.config with e | m
    · intro hres
      simp only [cancelRun, if_neg hni, hm] at hres
      cases hres
    · intro _
      simp only [cancelRun, if_neg hni, hm]
      refine ⟨by first | rfl | trivial, ?_⟩
      exact endsWithCompleted_append _ _ rfl
  · intro hid
    unfold cancelRun
    rw [if_pos hid]
    exact hid

/-- Witness for C2 at a concrete recording session (streaming enabled,
handle open, fast model) with all collaborators succeeding, plus a
cancel from the idle state. -/
theorem session_terminal_resets_to_idle_witness :
    ((finalizeRun {} {}
        { state := .recording, config := some { model := .fast, streamingEnabled := true },
          streamingHandle := true }).st.state = SessState.idle ∧
      endsWithCompleted (finalizeRun {} {}
        { state := .recording, config := some { model := .fast, streamingEnabled := true },
          streamingHandle := true }).tr = true) ∧
    ((cancelRun
        { state := .recording, config := some { model := .fast, streamingEnabled := true },
          streamingHandle := true }).st.state = SessState.idle ∧
      endsWithCompleted (cancelRun
        { state := .recording, config := some { model := .fast, streamingEnabled := true },
          streamingHandle := true }).tr = true) ∧
    (cancelRun ({} : SessionSt)).st.state = SessState.idle := by
  obtain ⟨h1, h2, _⟩ := session_terminal_resets_to_idle {} {}
    { state := .recording, config := some { model := .fast, streamingEnabled := true },
      streamingHandle := true }
  obtain ⟨_, _, h3⟩ := session_terminal_resets_to_idle {} {} ({} : SessionSt)
  exact ⟨h1 rfl rfl, h2 (by decide) rfl, h3 rfl⟩

/-- C3 counterexample: a `pinned` selection carrying the explicit id `""`
does not resolve to `""` verbatim — the source's falsy test
`!parsed.pinnedModelId` treats the empty id like a missing one and
throws. -/
theorem resolveModel_pinned_empty_id :
    resolveModel (.pinned (some "")) = .error "Pinned model selection requires pinnedModelId" ∧
    resolveModel (.pinned (some "")) ≠ .ok "" :=
  ⟨rfl, fun h => by simp [resolveModel] at h⟩

/-- C3 (amended): `meeting` resolves to the diarization-capable model id
(the id the batch path recognises as diarizing); `pinned` with no id —
or with the empty id, which the code treats the same — is an error;
`pinned` with a non-empty id X resolves to X verbatim. -/
theorem resolveModel_resolution (X : String) (hX : X ≠ "") :
    resolveModel .meeting = .ok "gpt-4o-transcribe-diarize" ∧
    modelIndicatesDiarization "gpt-4o-transcribe-diarize" = true ∧
    resolveModel (.pinned none) = .error "Pinned model selection requires pinnedModelId" ∧
    resolveModel (.pinned (some X)) = .ok X ∧
    resolveModel (.pinned (some "")) = .error "Pinned model selection requires pinnedModelId" := by
  refine ⟨rfl, by decide, rfl, ?_, rfl⟩
  simp [resolveModel, hX]

/-- Witness for C3's amended theorem at the concrete pinned id "my-model". -/
theorem resolveModel_resolution_witness :
    ("my-model" : String) ≠ "" ∧
    (resolveModel .meeting = .ok "gpt-4o-transcribe-diarize" ∧
      modelIndicatesDiarization "gpt-4o-transcribe-diarize" = true ∧
      resolveModel (.pinned none) = .error "Pinned model selection requires pinnedModelId" ∧
      resolveModel (.pinned (some "my-model")) = .ok "my-model" ∧
      resolveModel (.pinned (some "")) = .error "Pinned model selection requires pinnedModelId") :=
  ⟨by decide, resolveModel_resolution "my-model" (by decide)⟩

/-- C4: the default pipeline (whitespace normalization, shortcuts,
formatting commands, punctuation normalization, vocabulary replacement,
keyword commands) on `"  Hello   OpenAI  ...  "` with the single
vocabulary entry OpenAI→OpenAI Inc., punctuation normalization enabled
and no mode (so no shortcuts/formatting), yields exactly
`"Hello OpenAI Inc...."`. -/
theorem default_pipeline_deterministic_example :
    runPipeline "  Hello   OpenAI  ...  "
      { mode := none
        settings := { punctuationNormalization := true }
        vocabulary := [{ source := "OpenAI", replacement := "OpenAI Inc." }]
        shortcuts := [] }
      DEFAULT_PIPELINE = "Hello OpenAI Inc...." := by
  decide

/-- C5: the formatting-command transducer at full level with markdown
style turns `"Make the next sentence bold. Hello, world."` into exactly
`"**Hello**, **world**."`; the second conjunct shows the pending
sentence format surviving the comma and being cleared by the terminal
full stop (the following word is emitted unformatted). -/
theorem formatting_sentence_bold_example :
    applyFormattingCommands "Make the next sentence bold. Hello, world." .markdown .full =
      "**Hello**, **world**." ∧
    applyFormattingCommands "Make the next sentence bold. Hello, world. today" .markdown .full =
      "**Hello**, **world**. today" := by
  decide

/-- C7: `transcribeWithFallback` retries with linear backoff — after the
n-th failure it waits `baseDelayMs * n` — so with maxAttempts 3 and a
transcribe failing twice then succeeding there are exactly 3 underlying
calls (2 failures before the success) and waits b·1, b·2; with
maxAttempts 2 and permanent failure there are exactly 2 calls, one wait
b·1, and the last underlying error is re-raised.  Schema defaults are
2 attempts and 200 ms. -/
theorem transcribeWithFallback_retry_examples (b : Nat) :
    (transcribeWithFallback
        (fun n => if n = 0 then .error "e1" else if n = 1 then .error "e2" else .ok "text")
        3 b).result = .ok "text" ∧
    (transcribeWithFallback
        (fun n => if n = 0 then .error "e1" else if n = 1 then .error "e2" else .ok "text")
        3 b).calls = 3 ∧
    (transcribeWithFallback
        (fun n => if n = 0 then .error "e1" else if n = 1 then .error "e2" else .ok "text")
        3 b).delays = [b * 1, b * 2] ∧
    (transcribeWithFallback (fun _ => .error "boom") 2 b).result = .error "boom" ∧
    (transcribeWithFallback (fun _ => .error "boom") 2 b).calls = 2 ∧
    (transcribeWithFallback (fun _ => .error "boom") 2 b).delays = [b * 1] ∧
    defaultMaxAttempts = 2 ∧ defaultBaseDelayMs = 200 :=
  ⟨rfl, rfl, rfl, rfl, rfl, rfl, rfl, rfl⟩

/-- C8: vocabulary replacement is word-boundary matched and
case-insensitive — `cat→feline` rewrites the standalone word (in any
case) but leaves `cat` inside `Concatenate`/`category` untouched — and
entries apply in list order, each over the previous entry's output. -/
theorem vocabulary_word_boundary_example :
    vocabularyReplacementStage.run "Concatenate the cat category."
      { vocabulary := [{ source := "cat", replacement := "feline" }] } =
      "Concatenate the feline category." ∧
    vocabularyReplacementStage.run "The CAT sat."
      { vocabulary := [{ source := "cat", replacement := "feline" }] } =
      "The feline sat." ∧
    (∀ (input : String) (e : VocabularyEntry) (es : List VocabularyEntry),
      vocabularyReplaceRun input (e :: es) =
        vocabularyReplaceRun
          (if e.source = "" then input else wbReplaceAll e.source e.replacement input) es) ∧
    (∀ (input : String) (ctx : PipelineContext),
      vocabularyReplacementStage.run input ctx = vocabularyReplaceRun input ctx.vocabulary) := by
  refine ⟨by decide, by decide, fun input e es => ?_, fun input ctx => rfl⟩
  simp only [vocabularyReplaceRun, List.foldl_cons]

/-- C9 (implicit): at the `punctuation` level every recognised deletion
or formatting command phrase is still matched and consumed — its words
never reach the output — while its effect is suppressed; in particular
`"hello delete last word"` yields `"hello"`, a suppressed next-word
command leaves the following word in place unformatted, and a suppressed
next-sentence command formats nothing. -/
theorem punctuation_level_commands_consumed_suppressed :
    applyFormattingCommands "hello delete last word" .markdown .punctuation = "hello" ∧
    applyFormattingCommands "hello delete the last word" .markdown .punctuation = "hello" ∧
    applyFormattingCommands "hello delete that last word" .markdown .punctuation = "hello" ∧
    applyFormattingCommands "hello delete last sentence" .markdown .punctuation = "hello" ∧
    applyFormattingCommands "hello delete the last sentence" .markdown .punctuation = "hello" ∧
    applyFormattingCommands "hello delete that last sentence" .markdown .punctuation = "hello" ∧
    applyFormattingCommands "hello bold last word" .markdown .punctuation = "hello" ∧
    applyFormattingCommands "hello last word bold" .markdown .punctuation = "hello" ∧
    applyFormattingCommands "hello italic last word" .markdown .punctuation = "hello" ∧
    applyFormattingCommands "hello last word italic" .markdown .punctuation = "hello" ∧
    applyFormattingCommands "hello make last word bold" .markdown .punctuation = "hello" ∧
    applyFormattingCommands "hello make last word italic" .markdown .punctuation = "hello" ∧
    applyFormattingCommands "hello make the last word bold" .markdown .punctuation = "hello" ∧
    applyFormattingCommands "hello make the last word italic" .markdown .punctuation = "hello" ∧
    applyFormattingCommands "hello make next sentence bold" .markdown .punctuation = "hello" ∧
    applyFormattingCommands "hello make next sentence italic" .markdown .punctuation = "hello" ∧
    applyFormattingCommands "hello make the next sentence bold" .markdown .punctuation = "hello" ∧
    applyFormattingCommands "hello make the next sentence italic" .markdown .punctuation = "hello" ∧
    applyFormattingCommands "hello next sentence bold" .markdown .punctuation = "hello" ∧
    applyFormattingCommands "hello bold next sentence" .markdown .punctuation = "hello" ∧
    applyFormattingCommands "hello next sentence italic" .markdown .punctuation = "hello" ∧
    applyFormattingCommands "hello italic next sentence" .markdown .punctuation = "hello" ∧
    applyFormattingCommands "hello make next word bold" .markdown .punctuation = "hello" ∧
    applyFormattingCommands "hello make next word italic" .markdown .punctuation = "hello" ∧
    applyFormattingCommands "hello make the next word bold" .markdown .punctuation = "hello" ∧
    applyFormattingCommands "hello make the next word italic" .markdown .punctuation = "hello" ∧
    applyFormattingCommands "hello next word bold" .markdown .punctuation = "hello" ∧
    applyFormattingCommands "hello next word italic" .markdown .punctuation = "hello" ∧
    applyFormattingCommands "hello bold next word" .markdown .punctuation = "hello" ∧
    applyFormattingCommands "hello italic next word" .markdown .punctuation = "hello" ∧
    applyFormattingCommands "hello make next word bold world" .markdown .punctuation =
      "hello world" ∧
    applyFormattingCommands "hello make next sentence bold world full stop" .markdown
      .punctuation = "hello world." := by
  decide

/-- C6: over a whole turn of the realtime handle (appends for each chunk,
then finalize), the commit message is sent if and only if the cumulative
audio bytes reach `round(sampleRate × 0.1) × 2` — 100 ms of 16-bit mono
audio at the configured rate (`minCommitBytes`); below that the commit
is skipped entirely. -/
theorem realtime_commit_iff_min_bytes (sr : Nat) (chunks : List Nat) :
    RealtimeMsg.commit ∈ rtRun sr chunks ↔ chunks.sum ≥ minCommitBytes sr := by
  rw [rtRun_eq]
  constructor
  · intro hmem
    rcases List.mem_append.1 hmem with hl | hr
    · rcases List.mem_map.1 hl with ⟨a, _, ha⟩
      cases ha
    · by_contra hlt
      rw [if_neg hlt] at hr
      cases hr
  · intro hge
    exact List.mem_append.2 (Or.inr (by rw [if_pos hge]; simp))

/-- C10 counterexample: a later final text with trailing whitespace is
not appended "separated by a single space" verbatim — the source trims
the concatenation, so merging "a" with "b " yields "a b", not "a b ". -/
theorem accumFinal_append_trims :
    accumFinal (some "a") "b " = some "a b" ∧
    accumFinal (some "a") "b " ≠ some ("a" ++ " " ++ "b ") := by
  refine ⟨by decide, by decide⟩

/-- C10 (amended): the first final text is stored (an empty held text is
falsy and behaves like no text); a later final extending the held text
replaces it; a later final that is a prefix of the held text is ignored;
any other later final is appended after a single space and the
concatenation trimmed of surrounding whitespace. -/
theorem accumFinal_merge_spec (c t : String) (hc : c ≠ "") :
    accumFinal none t = some t ∧
    accumFinal (some "") t = some t ∧
    (strIsPrefix c t = true → accumFinal (some c) t = some t) ∧
    (strIsPrefix c t = false → strIsPrefix t c = true → accumFinal (some c) t = some c) ∧
    (strIsPrefix c t = false → strIsPrefix t c = false →
      accumFinal (some c) t = some (jsTrim (c ++ " " ++ t))) := by
  refine ⟨rfl, rfl, fun h1 => ?_, fun h1 h2 => ?_, fun h1 h2 => ?_⟩ <;>
    simp [accumFinal, hc, h1]
  · simp [h2]
  · simp [h2]

/-- Witness for C10's amended theorem at the held text "ab" and the
incoming final "abc". -/
theorem accumFinal_merge_spec_witness :
    ("ab" : String) ≠ "" ∧
    (accumFinal none "abc" = some "abc" ∧
      accumFinal (some "") "abc" = some "abc" ∧
      (strIsPrefix "ab" "abc" = true → accumFinal (some "ab") "abc" = some "abc") ∧
      (strIsPrefix "ab" "abc" = false → strIsPrefix "abc" "ab" = true →
        accumFinal (some "ab") "abc" = some "ab") ∧
      (strIsPrefix "ab" "abc" = false → strIsPrefix "abc" "ab" = false →
        accumFinal (some "ab") "abc" = some (jsTrim ("ab" ++ " " ++ "abc")))) :=
  ⟨by decide, accumFinal_merge_spec "ab" "abc" (by decide)⟩

end Susurrare
